import Mathlib

/-!
Verification of the AttendanceReader repository's specification against a
shallow embedding of its three Python source files:

* `MS`    – `malam_saar_attendance.py` (fixed-range column strategy)
* `AR`    – `attendance_reader.py` (adaptive column strategy)
* `DocAI` – `attendance_reader_docai.py` (cloud-variant text normalisation)

Python strings are modelled as Lean `String` (a list of code points, matching
Python's `str`), floats as exact rationals `ℚ` (the arithmetic performed by the
pipeline – sums, halving, division by a column count – is exact on the inputs
of interest), Python `None` as `Option`, and Python dicts as insertion-ordered
association lists.
-/

/-! ## Character classes and shared string helpers -/

/-- Python `\d` restricted to ASCII digits (the only digits produced by the
PDF extraction this program consumes). -/
def isDigitCh (c : Char) : Bool := 48 ≤ c.toNat && c.toNat ≤ 57

/-- The Hebrew letter range `[א-ת]` used by both normalisers. -/
def isHebrewCh (c : Char) : Bool := 0x05D0 ≤ c.toNat && c.toNat ≤ 0x05EA

/-- `re.search` of the Hebrew-letter class: does the string contain one? -/
def containsHebrew (s : String) : Bool := s.data.any isHebrewCh

/-- Python `s[::-1]`. -/
def strRev (s : String) : String := ⟨s.data.reverse⟩

/-- Python `\s` / `str.split()` whitespace (ASCII part). -/
def isSpaceCh (c : Char) : Bool :=
  c.toNat = 32 || c.toNat = 9 || c.toNat = 10 || c.toNat = 13 ||
  c.toNat = 11 || c.toNat = 12

/-- Python substring test `pat in s`. -/
def strContains (s pat : String) : Bool :=
  s.data.tails.any (fun t => pat.data.isPrefixOf t)

/-! ## Fixed-format token patterns

Each `re` pattern of the sources is anchored (`^...$`), so a match is an exact
shape of the whole string; we state the shapes directly on the code-point
list. -/

/-- `^\d{2}:\d{2}$` (`TIME_RE` of `attendance_reader.py`). -/
def isTimeHHMM (s : String) : Bool :=
  match s.data with
  | [a, b, c, d, e] => isDigitCh a && isDigitCh b && c == ':' && isDigitCh d && isDigitCh e
  | _ => false

/-- `^\d{2}:\d{2}(:\d{2})?$` (`_RE_TIME_TOKEN` of `malam_saar_attendance.py`,
`TIME_RE` of the DocAI variant). -/
def isTimeTok (s : String) : Bool :=
  match s.data with
  | [a, b, c, d, e] =>
    isDigitCh a && isDigitCh b && c == ':' && isDigitCh d && isDigitCh e
  | [a, b, c, d, e, f, g, h] =>
    isDigitCh a && isDigitCh b && c == ':' && isDigitCh d && isDigitCh e &&
    f == ':' && isDigitCh g && isDigitCh h
  | _ => false

/-- `^\d{2}/\d{2}$` (`_RE_DATE_TOKEN` / `DATE_RE` of the two direct-extraction
variants). -/
def isDateDDMM (s : String) : Bool :=
  match s.data with
  | [a, b, c, d, e] => isDigitCh a && isDigitCh b && c == '/' && isDigitCh d && isDigitCh e
  | _ => false

/-- `^\d{2}/\d{2}/\d{4}$`: the full-date shape (`DD/MM/YYYY`). -/
def isDateDDMMYYYY (s : String) : Bool :=
  match s.data with
  | [a, b, c, d, e, f, g, h, i, j] =>
    isDigitCh a && isDigitCh b && c == '/' && isDigitCh d && isDigitCh e &&
    f == '/' && isDigitCh g && isDigitCh h && isDigitCh i && isDigitCh j
  | _ => false

/-- `^\d{2}/\d{2}/(\d{2}|\d{4})$` (`DATE_RE` of the DocAI variant). -/
def isDateDocai (s : String) : Bool :=
  match s.data with
  | [a, b, c, d, e, f, g, h] =>
    isDigitCh a && isDigitCh b && c == '/' && isDigitCh d && isDigitCh e &&
    f == '/' && isDigitCh g && isDigitCh h
  | [a, b, c, d, e, f, g, h, i, j] =>
    isDigitCh a && isDigitCh b && c == '/' && isDigitCh d && isDigitCh e &&
    f == '/' && isDigitCh g && isDigitCh h && isDigitCh i && isDigitCh j
  | _ => false

/-! ## The two script normalisers -/

namespace MS

/-- `normalize_hebrew_word` of `malam_saar_attendance.py`: reverse the word iff
it contains a Hebrew character. -/
def normalize_hebrew_word (word : String) : String :=
  if containsHebrew word then strRev word else word

end MS

namespace DocAI

/-- `fix_hebrew_text` of `attendance_reader_docai.py`: leave time/date tokens
alone, otherwise reverse iff the text contains a Hebrew character. -/
def fix_hebrew_text (text : String) : String :=
  if isTimeTok text || isDateDocai text then text
  else if containsHebrew text then strRev text
  else text

end DocAI

/-! ## Lemmas about the character classes -/

lemma isHebrewCh_false_of_digit {c : Char} (h : isDigitCh c = true) :
    isHebrewCh c = false := by
  simp only [isDigitCh, Bool.and_eq_true, decide_eq_true_eq] at h
  simp only [isHebrewCh, Bool.and_eq_false_iff, decide_eq_false_iff_not, not_le]
  left
  omega

lemma isHebrewCh_colon : isHebrewCh ':' = false := by decide

lemma isHebrewCh_slash : isHebrewCh '/' = false := by decide

/-- A string of one of the four fixed-format shapes named by the spec contains
no Hebrew character. -/
lemma containsHebrew_false_of_fixed_format {s : String}
    (h : isTimeTok s = true ∨ isDateDDMM s = true ∨ isDateDDMMYYYY s = true) :
    containsHebrew s = false := by
  unfold containsHebrew
  rcases h with h | h | h
  · unfold isTimeTok at h
    match hd : s.data with
    | [a, b, c, d, e] =>
      rw [hd] at h
      simp only [Bool.and_eq_true, beq_iff_eq] at h
      obtain ⟨⟨⟨⟨ha, hb⟩, hc⟩, hd'⟩, he⟩ := h
      subst hc
      simp [List.any, isHebrewCh_false_of_digit, ha, hb, hd', he, isHebrewCh_colon]
    | [a, b, c, d, e, f, g, h'] =>
      rw [hd] at h
      simp only [Bool.and_eq_true, beq_iff_eq] at h
      obtain ⟨⟨⟨⟨⟨⟨⟨ha, hb⟩, hc⟩, hd'⟩, he⟩, hf⟩, hg⟩, hh⟩ := h
      subst hc; subst hf
      simp [List.any, isHebrewCh_false_of_digit, ha, hb, hd', he, hg, hh, isHebrewCh_colon]
    | [] => rw [hd] at h; simp at h
    | [a] => rw [hd] at h; simp at h
    | [a, b] => rw [hd] at h; simp at h
    | [a, b, c] => rw [hd] at h; simp at h
    | [a, b, c, d] => rw [hd] at h; simp at h
    | [a, b, c, d, e, f] => rw [hd] at h; simp at h
    | [a, b, c, d, e, f, g] => rw [hd] at h; simp at h
    | a :: b :: c :: d :: e :: f :: g :: h' :: i :: rest =>
      rw [hd] at h; cases rest <;> simp at h
  · unfold isDateDDMM at h
    match hd : s.data with
    | [a, b, c, d, e] =>
      rw [hd] at h
      simp only [Bool.and_eq_true, beq_iff_eq] at h
      obtain ⟨⟨⟨⟨ha, hb⟩, hc⟩, hd'⟩, he⟩ := h
      subst hc
      simp [List.any, isHebrewCh_false_of_digit, ha, hb, hd', he, isHebrewCh_slash]
    | [] => rw [hd] at h; simp at h
    | [a] => rw [hd] at h; simp at h
    | [a, b] => rw [hd] at h; simp at h
    | [a, b, c] => rw [hd] at h; simp at h
    | [a, b, c, d] => rw [hd] at h; simp at h
    | a :: b :: c :: d :: e :: f :: rest =>
      rw [hd] at h; simp at h
  · unfold isDateDDMMYYYY at h
    match hd : s.data with
    | [a, b, c, d, e, f, g, h', i, j] =>
      rw [hd] at h
      simp only [Bool.and_eq_true, beq_iff_eq] at h
      obtain ⟨⟨⟨⟨⟨⟨⟨⟨⟨ha, hb⟩, hc⟩, hd'⟩, he⟩, hf⟩, hg⟩, hh⟩, hi⟩, hj⟩ := h
      subst hc; subst hf
      simp [List.any, isHebrewCh_false_of_digit, ha, hb, hd', he, hg, hh, hi, hj,
        isHebrewCh_slash]
    | [] => rw [hd] at h; simp at h
    | [a] => rw [hd] at h; simp at h
    | [a, b] => rw [hd] at h; simp at h
    | [a, b, c] => rw [hd] at h; simp at h
    | [a, b, c, d] => rw [hd] at h; simp at h
    | [a, b, c, d, e] => rw [hd] at h; simp at h
    | [a, b, c, d, e, f] => rw [hd] at h; simp at h
    | [a, b, c, d, e, f, g] => rw [hd] at h; simp at h
    | [a, b, c, d, e, f, g, h'] => rw [hd] at h; simp at h
    | [a, b, c, d, e, f, g, h', i] => rw [hd] at h; simp at h
    | a :: b :: c :: d :: e :: f :: g :: h' :: i :: j :: k :: rest =>
      rw [hd] at h; cases rest <;> simp at h

/-- A DocAI time pattern match forces the first character to be a digit. -/
lemma head_digit_of_isTimeTok {s : String} (h : isTimeTok s = true) :
    ∃ c ∈ s.data, isDigitCh c = true := by
  unfold isTimeTok at h
  match hd : s.data with
  | [a, b, c, d, e] =>
    rw [hd] at h
    simp only [Bool.and_eq_true] at h
    exact ⟨a, List.mem_cons_self a _, h.1.1.1.1⟩
  | [a, b, c, d, e, f, g, h'] =>
    rw [hd] at h
    simp only [Bool.and_eq_true] at h
    exact ⟨a, List.mem_cons_self a _, h.1.1.1.1.1.1.1⟩
  | [] => rw [hd] at h; simp at h
  | [a] => rw [hd] at h; simp at h
  | [a, b] => rw [hd] at h; simp at h
  | [a, b, c] => rw [hd] at h; simp at h
  | [a, b, c, d] => rw [hd] at h; simp at h
  | [a, b, c, d, e, f] => rw [hd] at h; simp at h
  | [a, b, c, d, e, f, g] => rw [hd] at h; simp at h
  | a :: b :: c :: d :: e :: f :: g :: h' :: i :: rest =>
    rw [hd] at h; cases rest <;> simp at h

/-- A DocAI date pattern match forces the first character to be a digit. -/
lemma head_digit_of_isDateDocai {s : String} (h : isDateDocai s = true) :
    ∃ c ∈ s.data, isDigitCh c = true := by
  unfold isDateDocai at h
  match hd : s.data with
  | [a, b, c, d, e, f, g, h'] =>
    rw [hd] at h
    simp only [Bool.and_eq_true] at h
    exact ⟨a, List.mem_cons_self a _, h.1.1.1.1.1.1.1⟩
  | [a, b, c, d, e, f, g, h', i, j] =>
    rw [hd] at h
    simp only [Bool.and_eq_true] at h
    exact ⟨a, List.mem_cons_self a _, h.1.1.1.1.1.1.1.1.1⟩
  | [] => rw [hd] at h; simp at h
  | [a] => rw [hd] at h; simp at h
  | [a, b] => rw [hd] at h; simp at h
  | [a, b, c] => rw [hd] at h; simp at h
  | [a, b, c, d] => rw [hd] at h; simp at h
  | [a, b, c, d, e] => rw [hd] at h; simp at h
  | [a, b, c, d, e, f] => rw [hd] at h; simp at h
  | [a, b, c, d, e, f, g] => rw [hd] at h; simp at h
  | [a, b, c, d, e, f, g, h', i] => rw [hd] at h; simp at h
  | a :: b :: c :: d :: e :: f :: g :: h' :: i :: j :: k :: rest =>
    rw [hd] at h; cases rest <;> simp at h

lemma containsHebrew_strRev (s : String) :
    containsHebrew (strRev s) = containsHebrew s := by
  simp [containsHebrew, strRev, List.any_reverse]

lemma strRev_strRev (s : String) : strRev (strRev s) = s := by
  simp [strRev]

/-! ## Claims C4 and C5 -/

/-- Claim C4: every token whose text matches the time pattern (`HH:MM` or
`HH:MM:SS`) or the date pattern (`DD/MM` or `DD/MM/YYYY`) is returned
unchanged (never reversed) by both script-normalisation functions. -/
theorem c4_fixed_format_never_reversed (s : String)
    (h : isTimeTok s = true ∨ isDateDDMM s = true ∨ isDateDDMMYYYY s = true) :
    MS.normalize_hebrew_word s = s ∧ DocAI.fix_hebrew_text s = s := by
  have hnoheb : containsHebrew s = false := containsHebrew_false_of_fixed_format h
  constructor
  · unfold MS.normalize_hebrew_word
    rw [hnoheb]
    simp
  · unfold DocAI.fix_hebrew_text
    by_cases hg : (isTimeTok s || isDateDocai s) = true
    · rw [if_pos hg]
    · rw [if_neg (by simp_all), hnoheb]
      simp

/-- Witness for C4 at the concrete tokens `"08:00"` and `"12/02"`. -/
theorem c4_fixed_format_never_reversed_witness :
    MS.normalize_hebrew_word "08:00" = "08:00" ∧ DocAI.fix_hebrew_text "12/02" = "12/02" :=
  ⟨(c4_fixed_format_never_reversed "08:00" (Or.inl (by decide))).1,
   (c4_fixed_format_never_reversed "12/02" (Or.inr (Or.inl (by decide)))).2⟩

/-- Claim C5: on any text with at least one Hebrew letter and no digit, both
script-normalisation functions are involutive: applying them twice returns the
original text. -/
theorem c5_normalisation_involutive (s : String)
    (hheb : containsHebrew s = true)
    (hnodig : ∀ c ∈ s.data, isDigitCh c = false) :
    MS.normalize_hebrew_word (MS.normalize_hebrew_word s) = s ∧
    DocAI.fix_hebrew_text (DocAI.fix_hebrew_text s) = s := by
  have hrevheb : containsHebrew (strRev s) = true := by
    rw [containsHebrew_strRev]; exact hheb
  have hnodig' : ∀ c ∈ (strRev s).data, isDigitCh c = false := by
    intro c hc
    exact hnodig c (by simpa [strRev] using hc)
  have htime : ∀ t : String, (∀ c ∈ t.data, isDigitCh c = false) →
      isTimeTok t = false := by
    intro t ht
    by_contra hne
    simp only [Bool.not_eq_false] at hne
    obtain ⟨c, hc, hdig⟩ := head_digit_of_isTimeTok hne
    rw [ht c hc] at hdig
    exact Bool.false_ne_true hdig
  have hdate : ∀ t : String, (∀ c ∈ t.data, isDigitCh c = false) →
      isDateDocai t = false := by
    intro t ht
    by_contra hne
    simp only [Bool.not_eq_false] at hne
    obtain ⟨c, hc, hdig⟩ := head_digit_of_isDateDocai hne
    rw [ht c hc] at hdig
    exact Bool.false_ne_true hdig
  constructor
  · unfold MS.normalize_hebrew_word
    rw [hheb]
    simp only [if_true]
    rw [hrevheb]
    simp [strRev_strRev]
  · have h1 : DocAI.fix_hebrew_text s = strRev s := by
      unfold DocAI.fix_hebrew_text
      rw [htime s hnodig, hdate s hnodig, hheb]
      simp
    have h2 : DocAI.fix_hebrew_text (strRev s) = s := by
      unfold DocAI.fix_hebrew_text
      rw [htime _ hnodig', hdate _ hnodig', hrevheb]
      simp [strRev_strRev]
    rw [h1, h2]

/-- Witness for C5 at the concrete Hebrew token `"אב"` (reverses to `"בא"` and
back). -/
theorem c5_normalisation_involutive_witness :
    MS.normalize_hebrew_word (MS.normalize_hebrew_word "אב") = "אב" ∧
    DocAI.fix_hebrew_text (DocAI.fix_hebrew_text "אב") = "אב" :=
  c5_normalisation_involutive "אב" (by decide) (by decide)

/-! ## Python string/number primitives used by `malam_saar_attendance.py` -/

/-- Python `str.split(sep)` for a one-character separator, on code points. -/
def splitOnCh (sep : Char) : List Char → List (List Char)
  | [] => [[]]
  | c :: cs =>
    let r := splitOnCh sep cs
    if c = sep then [] :: r
    else (c :: r.headD []) :: r.tail

/-- Python `s.split("/")`. -/
def pySplitSlash (s : String) : List String :=
  (splitOnCh '/' s.data).map (fun l => ⟨l⟩)

/-- Python slice `s[:n]`. -/
def strTake (s : String) (n : ℕ) : String := ⟨s.data.take n⟩

/-- Python slice `s[n:]`. -/
def strDrop (s : String) (n : ℕ) : String := ⟨s.data.drop n⟩

/-- Value of a digit string. -/
def digitsVal (l : List Char) : ℕ :=
  l.foldl (fun acc c => 10 * acc + (c.toNat - 48)) 0

/-- Python `int(s)` restricted to plain decimal digit strings (the only shape
this program ever feeds it: regex-captured `\d...` groups and `DD`/`MM` slices
of date tokens); anything else raises `ValueError`, modelled as `none`. -/
def pyInt (s : String) : Option ℤ :=
  if s.data ≠ [] ∧ s.data.all isDigitCh then some (digitsVal s.data : ℤ) else none

namespace MS

/-- The proleptic-Gregorian leap-year rule of Python's `datetime.date`. -/
def isLeapYear (y : ℤ) : Bool := y % 4 == 0 && (y % 100 != 0 || y % 400 == 0)

/-- Days in a month, per Python's `datetime.date`. -/
def daysInMonth (y m : ℤ) : ℤ :=
  if m = 2 then (if isLeapYear y then 29 else 28)
  else if m = 4 ∨ m = 6 ∨ m = 9 ∨ m = 11 then 30
  else 31

/-- A value of Python's `datetime.date`. -/
structure PyDate where
  year : ℤ
  month : ℤ
  day : ℤ
deriving DecidableEq, Repr

/-- Python `date(y, m, d)`: `some` a date when the triple is valid, `none` for
the `ValueError` the sources catch. -/
def mkPyDate (y m d : ℤ) : Option PyDate :=
  if 1 ≤ y ∧ y ≤ 9999 ∧ 1 ≤ m ∧ m ≤ 12 ∧ 1 ≤ d ∧ d ≤ daysInMonth y m then
    some ⟨y, m, d⟩
  else none

/-- `_reconstruct_date` of `malam_saar_attendance.py`: rebuild a full date from
a `DD/MM` token's day/month and the `'01/MM/YYYY'` salary-month header. -/
def _reconstruct_date (dd mm : ℤ) (salary_month_str : String) : Option PyDate :=
  let parts := pySplitSlash salary_month_str
  match parts.get? 2, parts.get? 1 with
  | some py, some pm =>
    match pyInt py, pyInt pm with
    | some salary_year, some salary_mm =>
      if mm ≤ salary_mm then mkPyDate salary_year mm dd
      else mkPyDate (salary_year - 1) mm dd
    | _, _ => none
  | _, _ => none

/-- `_parse_standard_hours` of `malam_saar_attendance.py`: split a merged
double-time token, keeping only its first five characters. -/
def _parse_standard_hours (token : String) : String × Option String :=
  if 10 ≤ token.data.length ∧ isTimeTok (strTake token 5) = true then
    (strTake token 5, none)
  else if isTimeTok token then (token, none)
  else (token, none)

end MS

/-! ## Claim C1 -/

/-- Claim C1: whenever `_reconstruct_date` produces a date from day `dd`,
month `mm` and a salary-month string whose month/year fields parse to
`salaryMM`/`salaryYY`, the produced year is `salaryYY` when `mm ≤ salaryMM`
and `salaryYY - 1` when `mm > salaryMM`; in particular day 31, month 12 under
salary month 01/2024 resolves to 2023-12-31. -/
theorem c1_year_rollover :
    (∀ (dd mm salaryMM salaryYY : ℤ) (sm d0 m0 y0 : String) (rest : List String)
      (d : MS.PyDate),
      pySplitSlash sm = d0 :: m0 :: y0 :: rest →
      pyInt m0 = some salaryMM → pyInt y0 = some salaryYY →
      MS._reconstruct_date dd mm sm = some d →
      d.year = if mm ≤ salaryMM then salaryYY else salaryYY - 1) ∧
    MS._reconstruct_date 31 12 "01/01/2024" = some ⟨2023, 12, 31⟩ := by
  constructor
  · intro dd mm salaryMM salaryYY sm d0 m0 y0 rest d hsplit hm hy hrec
    unfold MS._reconstruct_date at hrec
    rw [hsplit] at hrec
    simp only [List.get?, hm, hy] at hrec
    by_cases hle : mm ≤ salaryMM
    · rw [if_pos hle] at hrec
      rw [if_pos hle]
      unfold MS.mkPyDate at hrec
      split at hrec
      · cases hrec; rfl
      · exact absurd hrec (by simp)
    · rw [if_neg hle] at hrec
      rw [if_neg hle]
      unfold MS.mkPyDate at hrec
      split at hrec
      · cases hrec; rfl
      · exact absurd hrec (by simp)
  · decide

/-- Witness for C1: the salary-month string `"01/01/2024"` (salary month 1,
salary year 2024) with row day 31, month 12 takes the prior-year branch. -/
theorem c1_year_rollover_witness :
    (⟨2023, 12, 31⟩ : MS.PyDate).year = if (12 : ℤ) ≤ 1 then 2024 else 2024 - 1 :=
  c1_year_rollover.1 31 12 1 2024 "01/01/2024" "01" "01" "2024" [] ⟨2023, 12, 31⟩
    (by decide) (by decide) (by decide) c1_year_rollover.2

/-! ## Claim C6 -/

/-- Claim C6: a token of length at least 10 whose first five characters match
the time pattern is split by `_parse_standard_hours` to exactly those first
five characters (the remainder is discarded). -/
theorem c6_merged_token_split (token : String)
    (hlen : 10 ≤ token.data.length)
    (htime : isTimeTok (strTake token 5) = true) :
    MS._parse_standard_hours token = (strTake token 5, none) := by
  unfold MS._parse_standard_hours
  rw [if_pos ⟨hlen, htime⟩]

/-- Witness for C6: the merged token `"08:0008:00"` splits to `"08:00"`. -/
theorem c6_merged_token_split_witness :
    MS._parse_standard_hours "08:0008:00" = ("08:00", none) := by
  have h := c6_merged_token_split "08:0008:00" (by decide) (by decide)
  rw [h]
  decide

/-! ## A stable sort modelling Python's `sorted` / `list.sort`

Python's sort is stable; `insertIntoOrd` places a new element before the first
existing element that is strictly greater, hence after all equal ones, which
is exactly the stable order. `lt` is the strict comparison derived from the
sort key. -/

def insertIntoOrd {α : Type} (lt : α → α → Bool) (a : α) : List α → List α
  | [] => [a]
  | b :: l => if lt a b then a :: b :: l else b :: insertIntoOrd lt a l

def pySortedAux {α : Type} (lt : α → α → Bool) : List α → List α → List α
  | acc, [] => acc
  | acc, a :: l => pySortedAux lt (insertIntoOrd lt a acc) l

/-- Python `sorted(l, key=...)` (and `l.sort(...)`), with `lt` the strict
key comparison (`reverse=True` is the flipped key comparison). -/
def pySorted {α : Type} (lt : α → α → Bool) (l : List α) : List α :=
  pySortedAux lt [] l

lemma insertIntoOrd_perm {α : Type} (lt : α → α → Bool) (a : α) (l : List α) :
    List.Perm (insertIntoOrd lt a l) (a :: l) := by
  induction l with
  | nil => exact List.Perm.refl _
  | cons b l ih =>
    unfold insertIntoOrd
    by_cases h : lt a b = true
    · rw [if_pos h]
    · rw [if_neg h]
      exact List.Perm.trans (List.Perm.cons b ih) (List.Perm.swap a b l)

lemma pySortedAux_perm {α : Type} (lt : α → α → Bool) (l : List α) :
    ∀ acc : List α, List.Perm (pySortedAux lt acc l) (acc ++ l) := by
  induction l with
  | nil =>
    intro acc
    rw [List.append_nil]
    exact List.Perm.refl _
  | cons a l ih =>
    intro acc
    unfold pySortedAux
    exact List.Perm.trans (ih _)
      (List.Perm.trans ((insertIntoOrd_perm lt a acc).append_right l)
        List.perm_middle.symm)

lemma pySorted_perm {α : Type} (lt : α → α → Bool) (l : List α) :
    List.Perm (pySorted lt l) l := pySortedAux_perm lt l []

lemma mem_insertIntoOrd {α : Type} {lt : α → α → Bool} {a x : α} {l : List α} :
    x ∈ insertIntoOrd lt a l ↔ x = a ∨ x ∈ l := by
  constructor
  · intro h
    have := (insertIntoOrd_perm lt a l).mem_iff.mp h
    simpa using this
  · intro h
    apply (insertIntoOrd_perm lt a l).mem_iff.mpr
    simpa using h

lemma insertIntoOrd_pairwise {α : Type} {lt : α → α → Bool}
    (hasym : ∀ a b, lt a b = true → lt b a = false)
    (htrans : ∀ a b c, lt a b = true → lt b c = true → lt a c = true)
    {l : List α} (a : α) (hl : List.Pairwise (fun x y => lt y x = false) l) :
    List.Pairwise (fun x y => lt y x = false) (insertIntoOrd lt a l) := by
  induction l with
  | nil => simp [insertIntoOrd]
  | cons b l ih =>
    unfold insertIntoOrd
    rcases List.pairwise_cons.mp hl with ⟨hb, hl'⟩
    by_cases h : lt a b = true
    · rw [if_pos h]
      refine List.pairwise_cons.mpr ⟨?_, hl⟩
      intro c hc
      rcases List.mem_cons.mp hc with rfl | hc'
      · exact hasym a c h
      · by_contra hca
        simp only [Bool.not_eq_false] at hca
        have hcb : lt c b = true := htrans c a b hca h
        have := hb c hc'
        rw [this] at hcb
        exact Bool.false_ne_true hcb
    · rw [if_neg h]
      refine List.pairwise_cons.mpr ⟨?_, ih hl'⟩
      intro c hc
      rcases mem_insertIntoOrd.mp hc with rfl | hc'
      · simpa using h
      · exact hb c hc'

lemma pySortedAux_pairwise {α : Type} {lt : α → α → Bool}
    (hasym : ∀ a b, lt a b = true → lt b a = false)
    (htrans : ∀ a b c, lt a b = true → lt b c = true → lt a c = true)
    (l : List α) :
    ∀ acc : List α, List.Pairwise (fun x y => lt y x = false) acc →
    List.Pairwise (fun x y => lt y x = false) (pySortedAux lt acc l) := by
  induction l with
  | nil => intro acc hacc; simpa [pySortedAux] using hacc
  | cons a l ih =>
    intro acc hacc
    unfold pySortedAux
    exact ih _ (insertIntoOrd_pairwise hasym htrans a hacc)

/-- `pySorted` output is ascending (no later element strictly below an earlier
one). -/
lemma pySorted_pairwise {α : Type} {lt : α → α → Bool}
    (hasym : ∀ a b, lt a b = true → lt b a = false)
    (htrans : ∀ a b c, lt a b = true → lt b c = true → lt a c = true)
    (l : List α) :
    List.Pairwise (fun x y => lt y x = false) (pySorted lt l) :=
  pySortedAux_pairwise hasym htrans l [] List.Pairwise.nil

/-! ## Python dict with `float` keys (insertion-ordered association list) -/

/-- `d[k] = v` on a Python dict: update in place if the key exists, else
append. -/
def dictInsert {β : Type} (d : List (ℚ × β)) (k : ℚ) (v : β) : List (ℚ × β) :=
  match d with
  | [] => [(k, v)]
  | (k', v') :: rest => if k' = k then (k', v) :: rest else (k', v') :: dictInsert rest k v

/-- `d[k]` on a Python dict whose keys are known to contain `k` (the only way
the sources use it); out-of-dict access is modelled by the default. -/
def dictGet (d : List (ℚ × String)) (k : ℚ) : String :=
  match d with
  | [] => ""
  | (k', v) :: rest => if k' = k then v else dictGet rest k

/-- Python `abs` on a float. -/
def pyAbs (q : ℚ) : ℚ := if q < 0 then -q else q

/-- Python `min(l, key=f)` starting from a current best (ties keep the
earlier element, as Python's `min` does). -/
def pyMinFrom (f : ℚ → ℚ) : ℚ → List ℚ → ℚ
  | best, [] => best
  | best, k :: rest => pyMinFrom f (if f k < f best then k else best) rest

/-- Python `min(keys, key=f)` (the sources only call it on non-empty dicts). -/
def pyMinKey (f : ℚ → ℚ) : List ℚ → ℚ
  | [] => 0
  | k :: rest => pyMinFrom f k rest

lemma pyMinFrom_spec (f : ℚ → ℚ) (l : List ℚ) :
    ∀ best : ℚ, (pyMinFrom f best l = best ∨ pyMinFrom f best l ∈ l) ∧
      f (pyMinFrom f best l) ≤ f best ∧ ∀ k ∈ l, f (pyMinFrom f best l) ≤ f k := by
  induction l with
  | nil => intro best; exact ⟨Or.inl rfl, le_refl _, by simp⟩
  | cons k rest ih =>
    intro best
    unfold pyMinFrom
    by_cases h : f k < f best
    · rw [if_pos h]
      rcases ih k with ⟨hmem, hbest, hall⟩
      refine ⟨?_, ?_, ?_⟩
      · rcases hmem with h' | h'
        · exact Or.inr (by rw [h']; exact List.mem_cons_self k rest)
        · exact Or.inr (List.mem_cons_of_mem k h')
      · exact le_trans hbest (le_of_lt h)
      · intro k' hk'
        rcases List.mem_cons.mp hk' with rfl | hk''
        · exact hbest
        · exact hall k' hk''
    · rw [if_neg h]
      rcases ih best with ⟨hmem, hbest, hall⟩
      refine ⟨?_, hbest, ?_⟩
      · rcases hmem with h' | h'
        · exact Or.inl h'
        · exact Or.inr (List.mem_cons_of_mem k h')
      · intro k' hk'
        rcases List.mem_cons.mp hk' with rfl | hk''
        · exact le_trans hbest (not_lt.mp h)
        · exact hall k' hk''

/-- `pyMinKey` on a non-empty list is a member minimising `f`, and it is the
value Python's `min(..., key=f)` returns. -/
lemma pyMinKey_spec (f : ℚ → ℚ) (k : ℚ) (rest : List ℚ) :
    pyMinKey f (k :: rest) ∈ k :: rest ∧
      ∀ k' ∈ k :: rest, f (pyMinKey f (k :: rest)) ≤ f k' := by
  simp only [pyMinKey]
  rcases pyMinFrom_spec f rest k with ⟨hmem, hbest, hall⟩
  refine ⟨?_, ?_⟩
  · rcases hmem with h | h
    · rw [h]; exact List.mem_cons_self k rest
    · exact List.mem_cons_of_mem k h
  · intro k' hk'
    rcases List.mem_cons.mp hk' with rfl | hk''
    · exact hbest
    · exact hall k' hk''

/-! ## `attendance_reader.py` — adaptive column strategy -/

/-- Python `" ".join(parts)`. -/
def joinSpace : List String → String
  | [] => ""
  | [s] => s
  | s :: rest => s ++ " " ++ joinSpace rest

/-- A pdfplumber word dict: `text`, horizontal bounds `x0 ≤ x1`, vertical
position `top`. -/
structure Word where
  text : String
  x0 : ℚ
  x1 : ℚ
  top : ℚ
deriving DecidableEq, Repr

namespace AR

/-- `HEBREW_DAYS` of `attendance_reader.py`: day letter → full day name. -/
def HEBREW_DAYS : List (String × String) :=
  [("א", "ראשון"), ("ב", "שני"), ("ג", "שלישי"), ("ד", "רביעי"),
   ("ה", "חמישי"), ("ו", "שישי"), ("ש", "שבת")]

/-- Python `t in HEBREW_DAYS` (key membership). -/
def isHebDay (t : String) : Bool := HEBREW_DAYS.any (fun p => p.1 == t)

/-- Python `HEBREW_DAYS.get(k, default)`. -/
def hebDayGetD (k default : String) : String :=
  match HEBREW_DAYS.find? (fun p => p.1 == k) with
  | some p => p.2
  | none => default

/-- `_is_date_row`: at least 3 `DD/MM` tokens. -/
def _is_date_row (texts : List String) : Bool := 3 ≤ texts.countP isDateDDMM

/-- `_x_center`. -/
def _x_center (w : Word) : ℚ := (w.x0 + w.x1) / 2

/-- `_find_closest`: the value at the key nearest to `x`, or `""` when that
nearest key is farther than `tolerance` (or the lookup is empty). -/
def _find_closest (lookup : List (ℚ × String)) (x tolerance : ℚ) : String :=
  if lookup = [] then ""
  else
    let closest := pyMinKey (fun k => pyAbs (k - x)) (lookup.map (·.1))
    if pyAbs (closest - x) ≤ tolerance then dictGet lookup closest else ""

/-- `_build_data_lookup`: `{x_center: text}` over words inside
`[data_x_min - tolerance, data_x_max + tolerance]`, optionally filtered by a
token pattern. -/
def _build_data_lookup (row_words : List Word) (data_x_min data_x_max tolerance : ℚ)
    (pattern : Option (String → Bool)) : List (ℚ × String) :=
  row_words.foldl
    (fun result w =>
      let cx := _x_center w
      if cx < data_x_min - tolerance ∨ data_x_max + tolerance < cx then result
      else
        match pattern with
        | none => dictInsert result cx w.text
        | some p => if p w.text then dictInsert result cx w.text else result)
    []

/-- `_row_label`: all non-time, non-date words of the row joined by spaces. -/
def _row_label (row_words : List Word) : String :=
  joinSpace ((row_words.filter
    (fun w => !(isTimeHHMM w.text) && !(isDateDDMM w.text))).map (·.text))

/-- First-match-wins row classification state of `_process_block`. -/
structure RowCls where
  date_row_words : Option (List Word)
  day_row_words : Option (List Word)
  entry_row_words : Option (List Word)
  exit_row_words : Option (List Word)
  total_row_words : Option (List Word)
  day_type_row_words : Option (List Word)
deriving DecidableEq, Repr

/-- One iteration of the classification loop at the top of `_process_block`. -/
def classifyStep (st : RowCls) (row : ℚ × List Word) : RowCls :=
  let row_words := row.2
  let texts := row_words.map (·.text)
  if _is_date_row texts then
    if st.date_row_words = none then { st with date_row_words := some row_words } else st
  else if 3 ≤ texts.countP isHebDay then
    if st.day_row_words = none then { st with day_row_words := some row_words } else st
  else
    let label := _row_label row_words
    if strContains label "שעת כניסה" ∧ st.entry_row_words = none then
      { st with entry_row_words := some row_words }
    else if strContains label "שעת יציאה" ∧ st.exit_row_words = none then
      { st with exit_row_words := some row_words }
    else if strContains label "סה" ∧ strContains label "נוכח" ∧ st.total_row_words = none then
      { st with total_row_words := some row_words }
    else if (strContains label "סוג יום" ∨ strContains label "נוכחות") ∧
        st.day_type_row_words = none then
      { st with day_type_row_words := some row_words }
    else st

/-- The whole classification loop of `_process_block`. -/
def classifyRows (block_rows : List (ℚ × List Word)) : RowCls :=
  block_rows.foldl classifyStep ⟨none, none, none, none, none, none⟩

/-- The `(x_center, text)` pairs of the date-pattern tokens of the date row. -/
def datePairs (date_row_words : List Word) : List (ℚ × String) :=
  (date_row_words.filter (fun w => isDateDDMM w.text)).map (fun w => (_x_center w, w.text))

/-- `date_cols`: the date pairs sorted by ascending x-center (`sorted` with
`key=lambda p: p[0]`, stable). -/
def dateColsOf (date_row_words : List Word) : List (ℚ × String) :=
  pySorted (fun a b => a.1 < b.1) (datePairs date_row_words)

/-- The adaptive tolerance of `_process_block`, computed on the sorted
`date_cols`: `max(avg_spacing * 0.45, 10.0)` for more than one column, a fixed
`15.0` otherwise. -/
def tolOf (date_cols : List (ℚ × String)) : ℚ :=
  let xs := date_cols.map (·.1)
  let data_x_min := xs.headD 0
  let data_x_max := xs.getLastD 0
  if 1 < date_cols.length then
    max ((data_x_max - data_x_min) / ((xs.length : ℚ) - 1) * (9 / 20)) 10
  else 15

/-- One attendance record of `attendance_reader.py`. -/
structure ARecord where
  date : String
  day : String
  entry : String
  exit : String
  total : String
  day_type : String
deriving DecidableEq, Repr

/-- `_process_block`: classify the block's rows, derive the date columns and
adaptive tolerance, build per-role lookups, and emit one record per date
column by nearest-center matching. -/
def _process_block (block_rows : List (ℚ × List Word)) : List ARecord :=
  let st := classifyRows block_rows
  match st.date_row_words with
  | none => []
  | some date_row_words =>
    let date_cols := dateColsOf date_row_words
    if date_cols = [] then []
    else
      let xs := date_cols.map (·.1)
      let data_x_min := xs.headD 0
      let data_x_max := xs.getLastD 0
      let tolerance := tolOf date_cols
      let day_lookup := (st.day_row_words.getD []).foldl
        (fun r w => if isHebDay w.text then dictInsert r (_x_center w) w.text else r) []
      let entry_lookup := match st.entry_row_words with
        | some rw => _build_data_lookup rw data_x_min data_x_max tolerance (some isTimeHHMM)
        | none => []
      let exit_lookup := match st.exit_row_words with
        | some rw => _build_data_lookup rw data_x_min data_x_max tolerance (some isTimeHHMM)
        | none => []
      let total_lookup := match st.total_row_words with
        | some rw => _build_data_lookup rw data_x_min data_x_max tolerance (some isTimeHHMM)
        | none => []
      let day_type_lookup := match st.day_type_row_words with
        | some rw => _build_data_lookup rw data_x_min data_x_max tolerance none
        | none => []
      date_cols.map (fun p =>
        let day_letter := _find_closest day_lookup p.1 tolerance
        ({ date := p.2
           day := hebDayGetD day_letter day_letter
           entry := _find_closest entry_lookup p.1 tolerance
           exit := _find_closest exit_lookup p.1 tolerance
           total := _find_closest total_lookup p.1 tolerance
           day_type := _find_closest day_type_lookup p.1 tolerance } : ARecord))

/-- The block-segmentation loop of `_process_page` (accumulator form:
`blocks` and `current_block`). -/
def segLoop : List (ℚ × List Word) → List (List (ℚ × List Word)) →
    List (ℚ × List Word) → List (List (ℚ × List Word))
  | [], blocks, cur => if cur ≠ [] then blocks ++ [cur] else blocks
  | (y, row_words) :: rest, blocks, cur =>
    if _is_date_row (row_words.map (·.text)) then
      segLoop rest (if cur ≠ [] then blocks ++ [cur] else blocks) [(y, row_words)]
    else
      segLoop rest blocks (if cur ≠ [] then cur ++ [(y, row_words)] else cur)

/-- `_process_page`'s split of the page's sorted rows into blocks. -/
def segmentBlocks (sorted_rows : List (ℚ × List Word)) : List (List (ℚ × List Word)) :=
  segLoop sorted_rows [] []

end AR

/-! ## Sorted-list head/last bounds -/

lemma headD_mem_of_ne_nil {l : List ℚ} (h : l ≠ []) : l.headD 0 ∈ l := by
  cases l with
  | nil => exact absurd rfl h
  | cons a l => exact List.mem_cons_self a l

lemma getLastD_mem_of_ne_nil {l : List ℚ} (h : l ≠ []) : l.getLastD 0 ∈ l := by
  induction l with
  | nil => exact absurd rfl h
  | cons a l ih =>
    cases l with
    | nil => simp
    | cons b l' =>
      have hmem : (b :: l').getLastD 0 ∈ b :: l' := ih (by simp)
      have hgl : (a :: b :: l').getLastD 0 = (b :: l').getLastD 0 := by
        simp [List.getLastD]
      rw [hgl]
      exact List.mem_cons_of_mem a hmem

lemma headD_le_of_sorted {l : List ℚ} (h : List.Pairwise (fun a b => a ≤ b) l) :
    ∀ x ∈ l, l.headD 0 ≤ x := by
  cases l with
  | nil => simp
  | cons a l =>
    intro x hx
    rcases List.mem_cons.mp hx with rfl | hx'
    · simp
    · exact (List.pairwise_cons.mp h).1 x hx'

lemma le_getLastD_of_sorted {l : List ℚ} (h : List.Pairwise (fun a b => a ≤ b) l) :
    ∀ x ∈ l, x ≤ l.getLastD 0 := by
  induction l with
  | nil => simp
  | cons a l ih =>
    intro x hx
    rcases List.pairwise_cons.mp h with ⟨ha, hl⟩
    cases l with
    | nil => simp at hx; simp [hx]
    | cons b l' =>
      have hlast_mem : (b :: l').getLastD 0 ∈ b :: l' := getLastD_mem_of_ne_nil (by simp)
      have hgl : (a :: b :: l').getLastD 0 = (b :: l').getLastD 0 := by simp [List.getLastD]
      rcases List.mem_cons.mp hx with rfl | hx'
      · rw [hgl]; exact ha _ hlast_mem
      · rw [hgl]; exact ih hl x hx'

/-! ## Claim C2 -/

/-- Sorting pairs by their first component with the strict comparison yields a
list that is pairwise `≤` on first components. -/
lemma pairsSorted_pairwise_le (pairs : List (ℚ × String)) :
    List.Pairwise (fun a b : ℚ × String => a.1 ≤ b.1)
      (pySorted (fun a b : ℚ × String => a.1 < b.1) pairs) := by
  have h := @pySorted_pairwise (ℚ × String) (fun a b : ℚ × String => a.1 < b.1)
    (fun a b hab => by
      simp only [decide_eq_true_eq] at hab
      simp only [decide_eq_false_iff_not, not_lt]
      exact le_of_lt hab)
    (fun a b c hab hbc => by
      simp only [decide_eq_true_eq] at hab hbc
      simp only [decide_eq_true_eq]
      exact lt_trans hab hbc)
    pairs
  refine h.imp ?_
  intro a b hab
  simp only [decide_eq_false_iff_not, not_lt] at hab
  exact hab

/-- Claim C2: (1) with `n ≥ 2` date columns the adaptive tolerance is
`max(0.45 × (maxX − minX)/(n − 1), 10.0)` where `maxX`/`minX` bound the date
columns' x-centers; (2) with a single date column it is the fixed fallback
`15.0`; (3) `_find_closest` returns the lookup entry whose x-center is nearest
to the queried center, accepted only within the tolerance, and the empty
string otherwise. -/
theorem c2_adaptive_alignment :
    (∀ dateWords : List Word, 2 ≤ (AR.datePairs dateWords).length →
      ∃ mn mx : ℚ, mn ∈ (AR.datePairs dateWords).map (·.1) ∧
        mx ∈ (AR.datePairs dateWords).map (·.1) ∧
        (∀ x ∈ (AR.datePairs dateWords).map (·.1), mn ≤ x ∧ x ≤ mx) ∧
        AR.tolOf (AR.dateColsOf dateWords) =
          max ((9 / 20) * ((mx - mn) / (((AR.datePairs dateWords).length : ℚ) - 1))) 10) ∧
    (∀ dateWords : List Word, (AR.datePairs dateWords).length = 1 →
      AR.tolOf (AR.dateColsOf dateWords) = 15) ∧
    (∀ (lookup : List (ℚ × String)) (x tol : ℚ), lookup ≠ [] →
      ∃ k : ℚ, k ∈ lookup.map (·.1) ∧
        (∀ k' ∈ lookup.map (·.1), pyAbs (k - x) ≤ pyAbs (k' - x)) ∧
        AR._find_closest lookup x tol =
          if pyAbs (k - x) ≤ tol then dictGet lookup k else "") := by
  refine ⟨?_, ?_, ?_⟩
  · intro dateWords hlen
    set pairs := AR.datePairs dateWords with hpairs
    set sorted := AR.dateColsOf dateWords with hsorted
    have hperm : List.Perm sorted pairs := pySorted_perm _ _
    have hlen' : sorted.length = pairs.length := hperm.length_eq
    have hne : sorted ≠ [] := by
      intro hnil
      rw [hnil] at hlen'
      simp only [List.length_nil] at hlen'
      omega
    set xs := sorted.map (·.1) with hxs
    have hxs_ne : xs ≠ [] := by
      intro hnil
      exact hne (List.map_eq_nil_iff.mp hnil)
    have hxs_pairwise : List.Pairwise (fun a b : ℚ => a ≤ b) xs :=
      List.pairwise_map.mpr (pairsSorted_pairwise_le pairs)
    have hmem_iff : ∀ q : ℚ, q ∈ xs ↔ q ∈ pairs.map (·.1) := by
      intro q
      exact (hperm.map (·.1)).mem_iff
    refine ⟨xs.headD 0, xs.getLastD 0, ?_, ?_, ?_, ?_⟩
    · exact (hmem_iff _).mp (headD_mem_of_ne_nil hxs_ne)
    · exact (hmem_iff _).mp (getLastD_mem_of_ne_nil hxs_ne)
    · intro x hx
      have hx' : x ∈ xs := (hmem_iff x).mpr hx
      exact ⟨headD_le_of_sorted hxs_pairwise x hx', le_getLastD_of_sorted hxs_pairwise x hx'⟩
    · unfold AR.tolOf
      rw [if_pos (by omega)]
      have hxs_len : (xs.length : ℚ) = (pairs.length : ℚ) := by
        rw [hxs, List.length_map, hlen']
      rw [hxs_len, mul_comm]
  · intro dateWords hlen
    have hlen' : (AR.dateColsOf dateWords).length = 1 :=
      (pySorted_perm _ _).length_eq.trans hlen
    unfold AR.tolOf
    rw [if_neg (by omega)]
  · intro lookup x tol hne
    cases lookup with
    | nil => exact absurd rfl hne
    | cons p rest =>
      have hspec := pyMinKey_spec (fun k => pyAbs (k - x)) p.1 (rest.map (·.1))
      refine ⟨pyMinKey (fun k => pyAbs (k - x)) ((p :: rest).map (·.1)), ?_, ?_, ?_⟩
      · simpa using hspec.1
      · intro k' hk'
        exact hspec.2 k' (by simpa using hk')
      · unfold AR._find_closest
        rw [if_neg (by simp)]

/-- Witness for C2: two date columns at centers 100 and 200 (tolerance
`max(0.45·100, 10) = 45`), a single column (tolerance 15), and a one-entry
lookup. -/
theorem c2_adaptive_alignment_witness :
    (∃ mn mx : ℚ,
      mn ∈ (AR.datePairs [⟨"01/02", 100, 100, 0⟩, ⟨"02/02", 200, 200, 0⟩]).map (·.1) ∧
      mx ∈ (AR.datePairs [⟨"01/02", 100, 100, 0⟩, ⟨"02/02", 200, 200, 0⟩]).map (·.1) ∧
      (∀ x ∈ (AR.datePairs [⟨"01/02", 100, 100, 0⟩, ⟨"02/02", 200, 200, 0⟩]).map (·.1),
        mn ≤ x ∧ x ≤ mx) ∧
      AR.tolOf (AR.dateColsOf [⟨"01/02", 100, 100, 0⟩, ⟨"02/02", 200, 200, 0⟩]) =
        max ((9 / 20) * ((mx - mn) /
          (((AR.datePairs [⟨"01/02", 100, 100, 0⟩, ⟨"02/02", 200, 200, 0⟩]).length : ℚ) - 1))) 10) ∧
    AR.tolOf (AR.dateColsOf [⟨"01/02", 100, 100, 0⟩]) = 15 ∧
    (∃ k : ℚ, k ∈ ([((100 : ℚ), "08:00")]).map (·.1) ∧
      (∀ k' ∈ ([((100 : ℚ), "08:00")]).map (·.1), pyAbs (k - 0) ≤ pyAbs (k' - 0)) ∧
      AR._find_closest [((100 : ℚ), "08:00")] 0 5 =
        if pyAbs (k - 0) ≤ 5 then dictGet [((100 : ℚ), "08:00")] k else "") :=
  ⟨c2_adaptive_alignment.1 [⟨"01/02", 100, 100, 0⟩, ⟨"02/02", 200, 200, 0⟩] (by decide),
   c2_adaptive_alignment.2.1 [⟨"01/02", 100, 100, 0⟩] (by decide),
   c2_adaptive_alignment.2.2 [((100 : ℚ), "08:00")] 0 5 (by decide)⟩

/-! ## Claim C3 -/

lemma segLoop_pre (pre : List (ℚ × List Word)) (rest : List (ℚ × List Word))
    (blocks : List (List (ℚ × List Word)))
    (hpre : ∀ r ∈ pre, AR._is_date_row (r.2.map (·.text)) = false) :
    AR.segLoop (pre ++ rest) blocks [] = AR.segLoop rest blocks [] := by
  induction pre with
  | nil => rfl
  | cons r pre ih =>
    obtain ⟨y, ws⟩ := r
    have hr : AR._is_date_row (ws.map (·.text)) = false :=
      hpre (y, ws) (List.mem_cons_self _ _)
    have hstep : AR.segLoop ((y, ws) :: (pre ++ rest)) blocks [] =
        AR.segLoop (pre ++ rest) blocks [] := by
      simp [AR.segLoop, hr]
    rw [List.cons_append, hstep]
    exact ih (fun r h => hpre r (List.mem_cons_of_mem _ h))

lemma segLoop_mid (mid : List (ℚ × List Word)) :
    ∀ (rest : List (ℚ × List Word)) (blocks : List (List (ℚ × List Word)))
      (cur : List (ℚ × List Word)), cur ≠ [] →
    (∀ r ∈ mid, AR._is_date_row (r.2.map (·.text)) = false) →
    AR.segLoop (mid ++ rest) blocks cur = AR.segLoop rest blocks (cur ++ mid) := by
  induction mid with
  | nil => intro rest blocks cur _ _; simp
  | cons r mid ih =>
    intro rest blocks cur hcur hmid
    obtain ⟨y, ws⟩ := r
    have hr : AR._is_date_row (ws.map (·.text)) = false :=
      hmid (y, ws) (List.mem_cons_self _ _)
    have hstep : AR.segLoop ((y, ws) :: (mid ++ rest)) blocks cur =
        AR.segLoop (mid ++ rest) blocks (cur ++ [(y, ws)]) := by
      simp [AR.segLoop, hr, hcur]
    rw [List.cons_append, hstep,
      ih rest blocks (cur ++ [(y, ws)]) (by simp) (fun r h => hmid r (List.mem_cons_of_mem _ h)),
      List.append_assoc]
    rfl

/-- Claim C3: scanning ordered rows top to bottom, a date row closes the open
block and opens a new one containing just itself, any other row joins the open
block or is discarded when none is open; hence rows of the shape
`pre ++ d1 :: mid1 ++ d2 :: mid2` (dates exactly at `d1`, `d2`) yield exactly
the two blocks `d1 :: mid1` and `d2 :: mid2`, and `pre` appears in no block. -/
theorem c3_block_segmentation (pre mid1 mid2 : List (ℚ × List Word))
    (d1 d2 : ℚ × List Word)
    (hpre : ∀ r ∈ pre, AR._is_date_row (r.2.map (·.text)) = false)
    (hmid1 : ∀ r ∈ mid1, AR._is_date_row (r.2.map (·.text)) = false)
    (hmid2 : ∀ r ∈ mid2, AR._is_date_row (r.2.map (·.text)) = false)
    (hd1 : AR._is_date_row (d1.2.map (·.text)) = true)
    (hd2 : AR._is_date_row (d2.2.map (·.text)) = true) :
    AR.segmentBlocks (pre ++ d1 :: (mid1 ++ d2 :: mid2)) = [d1 :: mid1, d2 :: mid2] := by
  obtain ⟨y1, ws1⟩ := d1
  obtain ⟨y2, ws2⟩ := d2
  simp only at hd1 hd2
  unfold AR.segmentBlocks
  rw [segLoop_pre pre _ _ hpre]
  have h1 : AR.segLoop ((y1, ws1) :: (mid1 ++ (y2, ws2) :: mid2)) [] [] =
      AR.segLoop (mid1 ++ (y2, ws2) :: mid2) [] [(y1, ws1)] := by
    simp [AR.segLoop, hd1]
  rw [h1, segLoop_mid mid1 _ _ _ (by simp) hmid1]
  have h2 : AR.segLoop ((y2, ws2) :: mid2) [] ([(y1, ws1)] ++ mid1) =
      AR.segLoop mid2 [[(y1, ws1)] ++ mid1] [(y2, ws2)] := by
    simp [AR.segLoop, hd2]
  have h4 := segLoop_mid mid2 [] [[(y1, ws1)] ++ mid1] [(y2, ws2)] (by simp) hmid2
  rw [List.append_nil] at h4
  have h3 : AR.segLoop [] [[(y1, ws1)] ++ mid1] ([(y2, ws2)] ++ mid2) =
      [[(y1, ws1)] ++ mid1] ++ [[(y2, ws2)] ++ mid2] := by
    simp [AR.segLoop]
  rw [h2, h4, h3]
  simp

/-- Witness for C3: 20 rows with date rows exactly at positions 0 and 12
produce 2 blocks, spanning rows 0–11 and 12–19. -/
theorem c3_block_segmentation_witness :
    AR.segmentBlocks ([] ++
        ((0 : ℚ), [(⟨"01/02", 0, 0, 0⟩ : Word), ⟨"02/02", 0, 0, 0⟩, ⟨"03/02", 0, 0, 0⟩]) ::
        ((List.range 11).map (fun i => (((i : ℚ) + 1), [(⟨"x", 0, 0, 0⟩ : Word)])) ++
          ((12 : ℚ), [(⟨"04/02", 0, 0, 0⟩ : Word), ⟨"05/02", 0, 0, 0⟩, ⟨"06/02", 0, 0, 0⟩]) ::
          (List.range 7).map (fun i => (((i : ℚ) + 13), [(⟨"x", 0, 0, 0⟩ : Word)])))) =
      [((0 : ℚ), [(⟨"01/02", 0, 0, 0⟩ : Word), ⟨"02/02", 0, 0, 0⟩, ⟨"03/02", 0, 0, 0⟩]) ::
        (List.range 11).map (fun i => (((i : ℚ) + 1), [(⟨"x", 0, 0, 0⟩ : Word)])),
       ((12 : ℚ), [(⟨"04/02", 0, 0, 0⟩ : Word), ⟨"05/02", 0, 0, 0⟩, ⟨"06/02", 0, 0, 0⟩]) ::
        (List.range 7).map (fun i => (((i : ℚ) + 13), [(⟨"x", 0, 0, 0⟩ : Word)]))] :=
  c3_block_segmentation [] _ _ _ _ (by decide) (by decide) (by decide) (by decide) (by decide)

/-! ## Claim C10 -/

/-- Claim C10: when the block's classified date row has `n ≥ 1` date-pattern
tokens, `_process_block` emits exactly `n` records (none dropped, none added),
in ascending x-center order of the date columns, each record's date being the
corresponding date token's text. -/
theorem c10_one_record_per_date_column (block_rows : List (ℚ × List Word))
    (dateWords : List Word)
    (hcls : (AR.classifyRows block_rows).date_row_words = some dateWords)
    (hn : 1 ≤ (AR.datePairs dateWords).length) :
    (AR._process_block block_rows).map (fun r => r.date) =
      (AR.dateColsOf dateWords).map (·.2) ∧
    (AR._process_block block_rows).length = (AR.datePairs dateWords).length ∧
    List.Perm (AR.dateColsOf dateWords) (AR.datePairs dateWords) ∧
    List.Pairwise (fun a b : ℚ × String => a.1 ≤ b.1) (AR.dateColsOf dateWords) := by
  have hperm : List.Perm (AR.dateColsOf dateWords) (AR.datePairs dateWords) :=
    pySorted_perm _ _
  have hlen : (AR.dateColsOf dateWords).length = (AR.datePairs dateWords).length :=
    hperm.length_eq
  have hne : AR.dateColsOf dateWords ≠ [] := by
    intro h
    rw [h] at hlen
    simp only [List.length_nil] at hlen
    omega
  have hpb : AR._process_block block_rows =
      (AR.dateColsOf dateWords).map (fun p =>
        let st := AR.classifyRows block_rows
        let date_cols := AR.dateColsOf dateWords
        let xs := date_cols.map (·.1)
        let data_x_min := xs.headD 0
        let data_x_max := xs.getLastD 0
        let tolerance := AR.tolOf date_cols
        let day_lookup := (st.day_row_words.getD []).foldl
          (fun r w => if AR.isHebDay w.text then dictInsert r (AR._x_center w) w.text else r) []
        let entry_lookup := match st.entry_row_words with
          | some rw => AR._build_data_lookup rw data_x_min data_x_max tolerance (some isTimeHHMM)
          | none => []
        let exit_lookup := match st.exit_row_words with
          | some rw => AR._build_data_lookup rw data_x_min data_x_max tolerance (some isTimeHHMM)
          | none => []
        let total_lookup := match st.total_row_words with
          | some rw => AR._build_data_lookup rw data_x_min data_x_max tolerance (some isTimeHHMM)
          | none => []
        let day_type_lookup := match st.day_type_row_words with
          | some rw => AR._build_data_lookup rw data_x_min data_x_max tolerance none
          | none => []
        let day_letter := AR._find_closest day_lookup p.1 tolerance
        ({ date := p.2
           day := AR.hebDayGetD day_letter day_letter
           entry := AR._find_closest entry_lookup p.1 tolerance
           exit := AR._find_closest exit_lookup p.1 tolerance
           total := AR._find_closest total_lookup p.1 tolerance
           day_type := AR._find_closest day_type_lookup p.1 tolerance } : AR.ARecord)) := by
    unfold AR._process_block
    simp only [hcls]
    rw [if_neg hne]
  refine ⟨?_, ?_, hperm, ?_⟩
  · rw [hpb, List.map_map]
    rfl
  · rw [hpb, List.length_map, hlen]
  · exact pairsSorted_pairwise_le (AR.datePairs dateWords)

/-- Witness for C10: a one-row block with three date tokens yields three
records with the three date texts in ascending center order. -/
theorem c10_one_record_per_date_column_witness :
    (AR._process_block [((0 : ℚ),
        [(⟨"01/02", 100, 100, 0⟩ : Word), ⟨"02/02", 200, 200, 0⟩, ⟨"03/02", 300, 300, 0⟩])]).map
        (fun r => r.date) =
      (AR.dateColsOf
        [(⟨"01/02", 100, 100, 0⟩ : Word), ⟨"02/02", 200, 200, 0⟩, ⟨"03/02", 300, 300, 0⟩]).map
        (·.2) ∧
    (AR._process_block [((0 : ℚ),
        [(⟨"01/02", 100, 100, 0⟩ : Word), ⟨"02/02", 200, 200, 0⟩, ⟨"03/02", 300, 300, 0⟩])]).length =
      (AR.datePairs
        [(⟨"01/02", 100, 100, 0⟩ : Word), ⟨"02/02", 200, 200, 0⟩, ⟨"03/02", 300, 300, 0⟩]).length ∧
    List.Perm
      (AR.dateColsOf
        [(⟨"01/02", 100, 100, 0⟩ : Word), ⟨"02/02", 200, 200, 0⟩, ⟨"03/02", 300, 300, 0⟩])
      (AR.datePairs
        [(⟨"01/02", 100, 100, 0⟩ : Word), ⟨"02/02", 200, 200, 0⟩, ⟨"03/02", 300, 300, 0⟩]) ∧
    List.Pairwise (fun a b : ℚ × String => a.1 ≤ b.1)
      (AR.dateColsOf
        [(⟨"01/02", 100, 100, 0⟩ : Word), ⟨"02/02", 200, 200, 0⟩, ⟨"03/02", 300, 300, 0⟩]) :=
  c10_one_record_per_date_column
    [((0 : ℚ), [(⟨"01/02", 100, 100, 0⟩ : Word), ⟨"02/02", 200, 200, 0⟩, ⟨"03/02", 300, 300, 0⟩])]
    [(⟨"01/02", 100, 100, 0⟩ : Word), ⟨"02/02", 200, 200, 0⟩, ⟨"03/02", 300, 300, 0⟩]
    (by decide) (by decide)

/-! ## `malam_saar_attendance.py` — fixed-range column strategy -/

/-- Python `str.strip()`. -/
def pyStrip (s : String) : String :=
  ⟨((s.data.dropWhile isSpaceCh).reverse.dropWhile isSpaceCh).reverse⟩

/-- Generic splitter used for Python `str.split()` semantics. -/
def splitOnPred (p : Char → Bool) : List Char → List (List Char)
  | [] => [[]]
  | c :: cs =>
    let r := splitOnPred p cs
    if p c then [] :: r
    else (c :: r.headD []) :: r.tail

/-- Python `str.split()` (no argument): split on whitespace runs, dropping
empty pieces. -/
def pySplitWs (s : String) : List String :=
  ((splitOnPred isSpaceCh s.data).filter (· ≠ [])).map (fun l => (⟨l⟩ : String))

/-- Python `str.splitlines()` for `\n`-separated text (no trailing empty
piece). -/
def pySplitlines (s : String) : List String :=
  let parts := (splitOnPred (fun c => c == '\n') s.data).map (fun l => (⟨l⟩ : String))
  if s.data = [] then []
  else if s.data.getLast? = some '\n' then parts.dropLast
  else parts

/-- Python `"\n".join(lines)`. -/
def joinNewline : List String → String
  | [] => ""
  | [s] => s
  | s :: rest => s ++ "\n" ++ joinNewline rest

namespace MS

/-- A Python value stored in the heterogeneous `col_values` dict: a string or
(for the shift-premium flag) a bool. -/
inductive PyVal where
  | str (s : String)
  | bool (b : Bool)
deriving DecidableEq, Repr

/-- The string content of a `PyVal` the code treats as a `str`. -/
def asStr : PyVal → String
  | .str s => s
  | .bool _ => ""

/-- Dict update `d[k] = v` for string-keyed dicts. -/
def sdictInsert (d : List (String × PyVal)) (k : String) (v : PyVal) :
    List (String × PyVal) :=
  match d with
  | [] => [(k, v)]
  | (k', v') :: rest =>
    if k' = k then (k', v) :: rest else (k', v') :: sdictInsert rest k v

/-- Python `d.get(k)` (`None` when absent). -/
def sdictGet? (d : List (String × PyVal)) (k : String) : Option PyVal :=
  match d with
  | [] => none
  | (k', v) :: rest => if k' = k then some v else sdictGet? rest k

/-- Python `d.get(k, default)`. -/
def sdictGetD (d : List (String × PyVal)) (k : String) (default : PyVal) : PyVal :=
  match sdictGet? d k with
  | some v => v
  | none => default

/-- `ACTIVITY_MAP`: Hebrew activity text → English day-type. -/
def ACTIVITY_MAP : List (String × String) :=
  [("עבודה", "Work"), ("חופשה", "Vacation"), ("מחלה", "Sick"),
   ("אין דיווח נוכחות", "No Report"), ("ללא תקן עבודה", "No Standard"),
   ("בחירה", "Personal Day"), ("מחלת בן זוג", "Spouse Sick"),
   ("מחלת הורה", "Parent Sick"), ("מחלה בהצהרה", "Declared Sick"),
   ("השתלמות", "Training"), ("חג", "Holiday"), ("חוה\x22מ", "Intermediate Holiday"),
   ("ע\x27 חג", "Holiday Eve")]

/-- `ACTIVITY_MAP.get(raw, raw)`: unrecognised activities pass through. -/
def activityMapGet (raw : String) : String :=
  match ACTIVITY_MAP.find? (fun p => p.1 == raw) with
  | some p => p.2
  | none => raw

/-- `_NULL_ACTIVITIES`: activities for which all time/OT columns become
`None`. -/
def _NULL_ACTIVITIES : List String := ["אין דיווח נוכחות", "ללא תקן עבודה"]

/-- `DEFAULT_CONFIG`: column name → inclusive x0 range. -/
def DEFAULT_CONFIG : List (String × ℚ × ℚ) :=
  [("date", 795, 830), ("day_of_week", 782, 800), ("shift_marker", 750, 765),
   ("entry_actual", 704, 720), ("exit_actual", 677, 693),
   ("total_present", 652, 668), ("entry_for_pay", 620, 645),
   ("exit_for_pay", 591, 607), ("total_for_pay", 565, 581),
   ("activity", 485, 545), ("standard_hours", 434, 492), ("ot_100", 398, 420),
   ("ot_125", 362, 382), ("ot_150", 327, 347), ("ot_200", 291, 311),
   ("shift_87", 251, 272), ("shift_50", 222, 242), ("shift_20", 184, 207),
   ("deduction", 110, 135)]

/-- `_assign_column`: the first configured column whose range contains `x0`. -/
def _assign_column (x0 : ℚ) (config : List (String × ℚ × ℚ)) : Option String :=
  (config.find? (fun e => e.2.1 ≤ x0 && x0 ≤ e.2.2)).map (·.1)

/-- Python `round` to an integer (banker's rounding, half to even). -/
def pyRound (q : ℚ) : ℤ :=
  let f := ⌊q⌋
  let r := q - f
  if r < 1 / 2 then f
  else if 1 / 2 < r then f + 1
  else if f % 2 = 0 then f else f + 1

/-- Python `int()` truncation of a float toward zero. -/
def pyTrunc (q : ℚ) : ℤ := q.num / (q.den : ℤ)

/-- `rows.setdefault(bucket, []).append(w)`: append to an existing bucket, or
open a new one at the end. -/
def bucketAdd : List (ℤ × List Word) → ℤ → Word → List (ℤ × List Word)
  | [], k, w => [(k, [w])]
  | (k', ws) :: rest, k, w =>
    if k' = k then (k', ws ++ [w]) :: rest else (k', ws) :: bucketAdd rest k w

/-- `_group_by_y`: group words into rows keyed by
`int(round(top / tolerance) * tolerance)`. -/
def _group_by_y (words : List Word) (tolerance : ℚ) : List (ℤ × List Word) :=
  words.foldl
    (fun rows w => bucketAdd rows (pyTrunc ((pyRound (w.top / tolerance) : ℚ) * tolerance)) w)
    []

/-- `sorted(grouped.items())` (bucket keys are distinct, so tuple comparison
is key comparison). -/
def sortedRowsOf (words : List Word) : List (ℤ × List Word) :=
  pySorted (fun a b : ℤ × List Word => a.1 < b.1) (_group_by_y words 4)

/-- `config.get("date", [795, 830])`. -/
def dateRangeOf (config : List (String × ℚ × ℚ)) : ℚ × ℚ :=
  match config.find? (fun e => e.1 == "date") with
  | some e => e.2
  | none => (795, 830)

/-- The first word of the row that is a `DD/MM` token inside the date column
range (the `break` loop of `_parse_data_rows`). -/
def findDateToken (row_words : List Word) (date_range : ℚ × ℚ) : Option Word :=
  row_words.find? (fun w => isDateDDMM w.text && date_range.1 ≤ w.x0 && w.x0 ≤ date_range.2)

/-- State of the column-assignment loop: the `col_values` dict and the
collected `(x0, text)` activity words. -/
structure ColState where
  col_values : List (String × PyVal)
  activity_words : List (ℚ × String)
deriving DecidableEq, Repr

/-- One iteration of the column-assignment loop of `_parse_data_rows`. -/
def colStep (config : List (String × ℚ × ℚ)) (st : ColState) (w : Word) : ColState :=
  match _assign_column w.x0 config with
  | none => st
  | some col =>
    if col = "standard_hours" then
      { st with col_values := sdictInsert st.col_values col (.str (_parse_standard_hours w.text).1) }
    else if col = "shift_marker" then
      { st with col_values := sdictInsert st.col_values "shift_premium" (.bool (w.text == "*")) }
    else if col = "activity" then
      { st with activity_words := st.activity_words ++ [(w.x0, w.text)] }
    else
      { st with col_values := sdictInsert st.col_values col (.str w.text) }

/-- The final `col_values` dict of a row: run the column loop, sort the
activity words by descending `x0` (stable `reverse=True` sort, rightmost
first), join them and store under `"activity"`. -/
def colValuesOf (row_words : List Word) (config : List (String × ℚ × ℚ)) :
    List (String × PyVal) :=
  let st := row_words.foldl (colStep config) ⟨[], []⟩
  let sorted_acts := pySorted (fun a b : ℚ × String => b.1 < a.1) st.activity_words
  sdictInsert st.col_values "activity" (.str (joinSpace (sorted_acts.map (·.2))))

/-- `activity_raw`: the joined activity text, stripped. -/
def activityRawOf (row_words : List Word) (config : List (String × ℚ × ℚ)) : String :=
  pyStrip (asStr (sdictGetD (colValuesOf row_words config) "activity" (.str "")))

/-- One attendance record of `malam_saar_attendance.py` (employee fields are
attached later by `process_pdf`; missing keys read as `none`). -/
structure Record where
  salary_month : String
  full_date : Option PyDate
  day_of_week : Option PyVal
  day_type : String
  shift_premium : PyVal
  entry_actual : Option PyVal
  exit_actual : Option PyVal
  total_present_hours : Option PyVal
  entry_for_pay : Option PyVal
  exit_for_pay : Option PyVal
  total_for_pay_hours : Option PyVal
  standard_hours : Option PyVal
  ot_100 : Option PyVal
  ot_125 : Option PyVal
  ot_150 : Option PyVal
  ot_200 : Option PyVal
  shift_bonus_87 : Option PyVal
  shift_bonus_50 : Option PyVal
  shift_bonus_20 : Option PyVal
  deduction : Option PyVal
  employee_id : String := ""
  employee_name : String := ""
  tag_number : String := ""
deriving DecidableEq, Repr

/-- The loop body of `_parse_data_rows` for one row: `none` models the two
`continue`s (no date token in the date column, unparsable day/month). -/
def _row_record (row_words : List Word) (config : List (String × ℚ × ℚ))
    (salary_month : String) : Option Record :=
  match findDateToken row_words (dateRangeOf config) with
  | none => none
  | some w =>
    match pyInt (strTake w.text 2), pyInt (strTake (strDrop w.text 3) 2) with
    | some dd, some mm =>
      let full_date := _reconstruct_date dd mm salary_month
      let col_values := colValuesOf row_words config
      let activity_raw := activityRawOf row_words config
      let null_time := activity_raw ∈ _NULL_ACTIVITIES
      let t := fun (key : String) => if null_time then none else sdictGet? col_values key
      some
        { salary_month := if salary_month ≠ "" then strDrop salary_month 3 else ""
          full_date := full_date
          day_of_week := sdictGet? col_values "day_of_week"
          day_type := activityMapGet activity_raw
          shift_premium := sdictGetD col_values "shift_premium" (.bool false)
          entry_actual := t "entry_actual"
          exit_actual := t "exit_actual"
          total_present_hours := t "total_present"
          entry_for_pay := t "entry_for_pay"
          exit_for_pay := t "exit_for_pay"
          total_for_pay_hours := t "total_for_pay"
          standard_hours := t "standard_hours"
          ot_100 := t "ot_100"
          ot_125 := t "ot_125"
          ot_150 := t "ot_150"
          ot_200 := t "ot_200"
          shift_bonus_87 := t "shift_87"
          shift_bonus_50 := t "shift_50"
          shift_bonus_20 := t "shift_20"
          deduction := t "deduction" }
    | _, _ => none

/-- `_parse_data_rows`: one record per bucket row (top to bottom) that carries
a date token, skipping the rest. -/
def _parse_data_rows (words : List Word) (config : List (String × ℚ × ℚ))
    (salary_month : String) : List Record :=
  (sortedRowsOf words).filterMap (fun r => _row_record r.2 config salary_month)

end MS

/-- The two-character day and month slices of a `DD/MM` token always parse. -/
lemma pyInt_of_dateTok {t : String} (h : isDateDDMM t = true) :
    ∃ dd mm : ℤ, pyInt (strTake t 2) = some dd ∧ pyInt (strTake (strDrop t 3) 2) = some mm := by
  unfold isDateDDMM at h
  match hd : t.data with
  | [a, b, c, d, e] =>
    rw [hd] at h
    simp only [Bool.and_eq_true, beq_iff_eq] at h
    obtain ⟨⟨⟨⟨ha, hb⟩, hc⟩, hd'⟩, he⟩ := h
    refine ⟨(digitsVal [a, b] : ℤ), (digitsVal [d, e] : ℤ), ?_, ?_⟩
    · unfold pyInt strTake
      rw [hd]
      simp [List.all, ha, hb]
    · unfold pyInt strTake strDrop
      rw [hd]
      simp [List.all, hd', he]
  | [] => rw [hd] at h; simp at h
  | [a] => rw [hd] at h; simp at h
  | [a, b] => rw [hd] at h; simp at h
  | [a, b, c] => rw [hd] at h; simp at h
  | [a, b, c, d] => rw [hd] at h; simp at h
  | a :: b :: c :: d :: e :: f :: rest => rw [hd] at h; simp at h

/-! ## Claim C7 -/

/-- Claim C7: a day/month pair that is invalid for the resolved year makes
`_reconstruct_date` return no date, and a row carrying a date token is still
turned into a record whose `full_date` is exactly that (possibly null)
reconstruction — the record is emitted, not dropped. -/
theorem c7_invalid_date_emits_null_record :
    (∀ (dd mm salaryMM salaryYY : ℤ) (sm d0 m0 y0 : String) (rest : List String),
      pySplitSlash sm = d0 :: m0 :: y0 :: rest →
      pyInt m0 = some salaryMM → pyInt y0 = some salaryYY →
      ¬(1 ≤ (if mm ≤ salaryMM then salaryYY else salaryYY - 1) ∧
        (if mm ≤ salaryMM then salaryYY else salaryYY - 1) ≤ 9999 ∧
        1 ≤ mm ∧ mm ≤ 12 ∧ 1 ≤ dd ∧
        dd ≤ MS.daysInMonth (if mm ≤ salaryMM then salaryYY else salaryYY - 1) mm) →
      MS._reconstruct_date dd mm sm = none) ∧
    (∀ (row_words : List Word) (config : List (String × ℚ × ℚ)) (sm : String) (w : Word),
      MS.findDateToken row_words (MS.dateRangeOf config) = some w →
      ∃ (dd mm : ℤ) (rec : MS.Record),
        pyInt (strTake w.text 2) = some dd ∧
        pyInt (strTake (strDrop w.text 3) 2) = some mm ∧
        MS._row_record row_words config sm = some rec ∧
        rec.full_date = MS._reconstruct_date dd mm sm) := by
  constructor
  · intro dd mm salaryMM salaryYY sm d0 m0 y0 rest hsplit hm hy hinv
    unfold MS._reconstruct_date
    rw [hsplit]
    simp only [List.get?, hm, hy]
    by_cases hle : mm ≤ salaryMM
    · rw [if_pos hle]
      rw [if_pos hle] at hinv
      unfold MS.mkPyDate
      rw [if_neg (by tauto)]
    · rw [if_neg hle]
      rw [if_neg hle] at hinv
      unfold MS.mkPyDate
      rw [if_neg (by tauto)]
  · intro row_words config sm w hfind
    have hpred := List.find?_some hfind
    simp only [Bool.and_eq_true] at hpred
    have hdate : isDateDDMM w.text = true := hpred.1.1
    obtain ⟨dd, mm, h1, h2⟩ := pyInt_of_dateTok hdate
    refine ⟨dd, mm, ?_⟩
    simp only [MS._row_record, hfind, h1, h2]
    exact ⟨_, trivial, trivial, rfl, rfl⟩

/-- Witness for C7: day 31 of month 06 (June has 30 days) under salary month
07/2024 reconstructs to no date, while the row with date token `"31/06"` in
the date column still produces a record with `full_date` equal to that null
reconstruction. -/
theorem c7_invalid_date_emits_null_record_witness :
    MS._reconstruct_date 31 6 "01/07/2024" = none ∧
    (∃ (dd mm : ℤ) (rec : MS.Record),
      pyInt (strTake (Word.text ⟨"31/06", 800, 800, 0⟩) 2) = some dd ∧
      pyInt (strTake (strDrop (Word.text ⟨"31/06", 800, 800, 0⟩) 3) 2) = some mm ∧
      MS._row_record [⟨"31/06", 800, 800, 0⟩] MS.DEFAULT_CONFIG "01/07/2024" = some rec ∧
      rec.full_date = MS._reconstruct_date dd mm "01/07/2024") :=
  ⟨c7_invalid_date_emits_null_record.1 31 6 7 2024 "01/07/2024" "01" "07" "2024" []
      (by decide) (by decide) (by decide) (by decide),
   c7_invalid_date_emits_null_record.2 [⟨"31/06", 800, 800, 0⟩] MS.DEFAULT_CONFIG
      "01/07/2024" ⟨"31/06", 800, 800, 0⟩ (by decide)⟩

/-! ## Claim C9 -/

/-- Claim C9: every record emitted by `_parse_data_rows` comes from a row of
the page, and when that row's raw activity text is one of the designated null
activities, all fifteen time/overtime/bonus/deduction fields of the record are
`none` regardless of the values spatially bound to those columns. -/
theorem c9_null_activity_blanks_time_fields :
    (∀ (words : List Word) (config : List (String × ℚ × ℚ)) (sm : String) (rec : MS.Record),
      rec ∈ MS._parse_data_rows words config sm →
      ∃ r ∈ MS.sortedRowsOf words, MS._row_record r.2 config sm = some rec) ∧
    (∀ (row_words : List Word) (config : List (String × ℚ × ℚ)) (sm : String)
      (rec : MS.Record),
      MS._row_record row_words config sm = some rec →
      MS.activityRawOf row_words config ∈ MS._NULL_ACTIVITIES →
      rec.entry_actual = none ∧ rec.exit_actual = none ∧
      rec.total_present_hours = none ∧ rec.entry_for_pay = none ∧
      rec.exit_for_pay = none ∧ rec.total_for_pay_hours = none ∧
      rec.standard_hours = none ∧ rec.ot_100 = none ∧ rec.ot_125 = none ∧
      rec.ot_150 = none ∧ rec.ot_200 = none ∧ rec.shift_bonus_87 = none ∧
      rec.shift_bonus_50 = none ∧ rec.shift_bonus_20 = none ∧
      rec.deduction = none) := by
  constructor
  · intro words config sm rec hrec
    unfold MS._parse_data_rows at hrec
    obtain ⟨r, hr, hrow⟩ := List.mem_filterMap.mp hrec
    exact ⟨r, hr, hrow⟩
  · intro row_words config sm rec hrow hnull
    unfold MS._row_record at hrow
    split at hrow
    · exact absurd hrow (by simp)
    · split at hrow
      · rw [Option.some.injEq] at hrow
        subst hrow
        simp [hnull]
      · exact absurd hrow (by simp)

/-- Witness for C9: a row with date token `"01/07"`, activity text
`"אין דיווח נוכחות"` ("no report filed") and an entry time `"08:00"` bound to
the entry column still yields a record with all time fields `none`. -/
theorem c9_null_activity_blanks_time_fields_witness :
    ({ salary_month := "07/2024"
       full_date := some ⟨2024, 7, 1⟩
       day_of_week := none
       day_type := "No Report"
       shift_premium := .bool false
       entry_actual := none
       exit_actual := none
       total_present_hours := none
       entry_for_pay := none
       exit_for_pay := none
       total_for_pay_hours := none
       standard_hours := none
       ot_100 := none
       ot_125 := none
       ot_150 := none
       ot_200 := none
       shift_bonus_87 := none
       shift_bonus_50 := none
       shift_bonus_20 := none
       deduction := none } : MS.Record).entry_actual = none ∧
    ({ salary_month := "07/2024"
       full_date := some ⟨2024, 7, 1⟩
       day_of_week := none
       day_type := "No Report"
       shift_premium := .bool false
       entry_actual := none
       exit_actual := none
       total_present_hours := none
       entry_for_pay := none
       exit_for_pay := none
       total_for_pay_hours := none
       standard_hours := none
       ot_100 := none
       ot_125 := none
       ot_150 := none
       ot_200 := none
       shift_bonus_87 := none
       shift_bonus_50 := none
       shift_bonus_20 := none
       deduction := none } : MS.Record).exit_actual = none ∧ True :=
  ⟨(c9_null_activity_blanks_time_fields.2
      [⟨"01/07", 800, 800, 100⟩, ⟨"אין דיווח נוכחות", 500, 500, 100⟩, ⟨"08:00", 710, 710, 100⟩]
      MS.DEFAULT_CONFIG "01/07/2024" _ (by decide) (by decide)).1,
   (c9_null_activity_blanks_time_fields.2
      [⟨"01/07", 800, 800, 100⟩, ⟨"אין דיווח נוכחות", 500, 500, 100⟩, ⟨"08:00", 710, 710, 100⟩]
      MS.DEFAULT_CONFIG "01/07/2024" _ (by decide) (by decide)).2.1,
   trivial⟩

/-! ## `process_pdf` — header extraction and cross-page carry-forward -/

namespace MS

/-- `\s+`: at least one whitespace character, consumed greedily (the patterns
follow it with non-whitespace literals, so maximal munch is exact). -/
def skipWs1 (l : List Char) : Option (List Char) :=
  if l.takeWhile isSpaceCh = [] then none else some (l.dropWhile isSpaceCh)

/-- `_RE_SALARY_MONTH` (`(\d{2}/\d{2}/\d{4})\s+שכר\s+בחודש`) tried at one
position; the captured group is the ten-character date. -/
def matchSalaryAt : List Char → Option String
  | a :: b :: c :: d :: e :: f :: g :: h :: i :: j :: rest =>
    if isDigitCh a && isDigitCh b && c == '/' && isDigitCh d && isDigitCh e &&
        f == '/' && isDigitCh g && isDigitCh h && isDigitCh i && isDigitCh j then
      match skipWs1 rest with
      | none => none
      | some r1 =>
        if ("שכר".data).isPrefixOf r1 then
          match skipWs1 (r1.drop ("שכר".data).length) with
          | none => none
          | some r2 =>
            if ("בחודש".data).isPrefixOf r2 then some ⟨[a, b, c, d, e, f, g, h, i, j]⟩
            else none
        else none
    else none
  | _ => none

/-- `re.search`: try the pattern at each position, leftmost match first. -/
def searchFirst (m : List Char → Option String) : List Char → Option String
  | [] => m []
  | c :: cs =>
    match m (c :: cs) with
    | some r => some r
    | none => searchFirst m cs

/-- `_RE_EMPLOYEE_ID` (`(\d{7,9})\s+זהות`) tried at one position, with the
greedy 9-then-8-then-7 backtracking of `\d{7,9}`. -/
def matchEmpIdAt (l : List Char) : Option String :=
  let tryLen : ℕ → Option String := fun n =>
    let ds := l.take n
    if ds.length = n ∧ ds.all isDigitCh then
      match skipWs1 (l.drop n) with
      | some r => if ("זהות".data).isPrefixOf r then some (⟨ds⟩ : String) else none
      | none => none
    else none
  match tryLen 9 with
  | some r => some r
  | none =>
    match tryLen 8 with
    | some r => some r
    | none => tryLen 7

/-- `_RE_TAG_NUMBER` (`(\d+)\s+תג:`) tried at one position (shorter digit runs
cannot rescue a failed maximal run, since the next character would be a
digit). -/
def matchTagAt (l : List Char) : Option String :=
  let ds := l.takeWhile isDigitCh
  if ds = [] then none
  else
    match skipWs1 (l.dropWhile isDigitCh) with
    | some r => if ("תג:".data).isPrefixOf r then some (⟨ds⟩ : String) else none
    | none => none

def searchSalaryMonth (s : String) : Option String := searchFirst matchSalaryAt s.data

def searchEmployeeId (s : String) : Option String := searchFirst matchEmpIdAt s.data

def searchTagNumber (s : String) : Option String := searchFirst matchTagAt s.data

/-- `line.split("שם")[0]`: the prefix before the first occurrence. -/
def beforeFirst (pat : List Char) : List Char → List Char
  | [] => []
  | c :: cs => if pat.isPrefixOf (c :: cs) then [] else c :: beforeFirst pat cs

/-- The line loop of `_extract_employee_name`: on a line containing the name
and identity markers, collect the Hebrew-only words right of the split point
(walking backward until a non-Hebrew token); fall through when none. -/
def _extract_employee_name_lines : List String → String
  | [] => ""
  | line :: rest =>
    if strContains line "שם" && strContains line "זהות" then
      let before : String := ⟨beforeFirst ("שם".data) line.data⟩
      let tokens := pySplitWs (pyStrip before)
      let name_parts := (tokens.reverse.takeWhile (fun tok => containsHebrew tok)).reverse
      if name_parts ≠ [] then joinSpace name_parts else _extract_employee_name_lines rest
    else _extract_employee_name_lines rest

/-- `_extract_employee_name` of `malam_saar_attendance.py`. -/
def _extract_employee_name (t : String) : String :=
  _extract_employee_name_lines (pySplitlines t)

/-- The dict built by `_extract_headers` (a key is present only on a match;
the name key additionally requires a non-empty name). -/
structure Headers where
  salary_month : Option String
  employee_id : Option String
  tag_number : Option String
  employee_name : Option String
deriving DecidableEq, Repr

/-- `_extract_headers` of `malam_saar_attendance.py`. -/
def _extract_headers (page_text : String) : Headers :=
  { salary_month := searchSalaryMonth page_text
    employee_id := searchEmployeeId page_text
    tag_number := searchTagNumber page_text
    employee_name :=
      let n := _extract_employee_name page_text
      if n ≠ "" then some n else none }

/-- `normalize_row_words`: normalise the `text` of every word. -/
def normalize_row_words (words : List Word) : List Word :=
  words.map (fun w => { w with text := normalize_hebrew_word w.text })

/-- `normalize_line`: reverse each Hebrew token of a whitespace-delimited
line. -/
def normalize_line (line : String) : String :=
  joinSpace ((pySplitWs line).map normalize_hebrew_word)

/-- One page of input as `process_pdf` consumes it from the external PDF
extractor: its raw text and its word tokens. -/
structure PageIn where
  rawText : String
  words : List Word
deriving DecidableEq, Repr

/-- The per-line normalised page text `process_pdf` builds for header
matching. -/
def normalizedTextOf (p : PageIn) : String :=
  joinNewline ((pySplitlines p.rawText).map normalize_line)

/-- `_RE_DATA_PAGE_MARKER.search`: pages without the marker are summary pages
and are skipped. -/
def isDataPage (p : PageIn) : Bool := strContains (normalizedTextOf p) "חישוב:"

/-- The carried-forward header state `current_employee` of `process_pdf`. -/
structure Emp where
  employee_id : String
  employee_name : String
  tag_number : String
  salary_month : String
deriving DecidableEq, Repr

/-- The initial sentinel header state. -/
def initEmp : Emp := ⟨"", "", "", "01/01/1900"⟩

/-- `if headers.get(k): current[k] = headers[k]`: overwrite only on a truthy
(present and non-empty) extracted value. -/
def updField (cur : String) (h : Option String) : String :=
  match h with
  | some v => if v ≠ "" then v else cur
  | none => cur

/-- The header-update step of `process_pdf` for one page (summary pages leave
the state untouched). -/
def empStep (emp : Emp) (p : PageIn) : Emp :=
  if isDataPage p then
    let hs := _extract_headers (normalizedTextOf p)
    { employee_id := updField emp.employee_id hs.employee_id
      employee_name := updField emp.employee_name hs.employee_name
      tag_number := updField emp.tag_number hs.tag_number
      salary_month := updField emp.salary_month hs.salary_month }
  else emp

/-- One iteration of the page loop of `process_pdf`: update the header state,
parse the page's rows with the updated salary month, and attach the updated
employee fields to every record. Summary pages produce nothing. -/
def processPage (config : List (String × ℚ × ℚ)) (emp : Emp) (p : PageIn) :
    Emp × List Record :=
  if isDataPage p then
    let emp2 := empStep emp p
    (emp2,
      (_parse_data_rows (normalize_row_words p.words) config emp2.salary_month).map
        (fun rec =>
          { rec with
              employee_id := emp2.employee_id
              employee_name := emp2.employee_name
              tag_number := emp2.tag_number }))
  else (emp, [])

/-- The page loop of `process_pdf`, threading the header state. -/
def processPdfAux (config : List (String × ℚ × ℚ)) : Emp → List PageIn → List Record
  | _, [] => []
  | emp, p :: rest =>
    (processPage config emp p).2 ++ processPdfAux config (processPage config emp p).1 rest

/-- `process_pdf` (the column config is loaded externally and passed in; page
extraction is the external pdfplumber collaborator, so a page arrives as its
raw text plus word list). -/
def process_pdf (pages : List PageIn) (config : List (String × ℚ × ℚ)) : List Record :=
  processPdfAux config initEmp pages

/-- The header state after a list of pages. -/
def empFold (pages : List PageIn) : Emp := pages.foldl empStep initEmp

/-- The non-empty header value a page supplies for a field, if any (summary
pages supply nothing). -/
def supplied (f : Headers → Option String) (p : PageIn) : Option String :=
  if isDataPage p then
    match f (_extract_headers (normalizedTextOf p)) with
    | some v => if v = "" then none else some v
    | none => none
  else none

end MS

/-- Carry-forward characterisation for one header field: after any page list,
the field holds the last non-empty value supplied for it, or its initial
sentinel when no page supplied one. -/
lemma empFold_field (g : MS.Emp → String) (f : MS.Headers → Option String) (d : String)
    (hg_init : g MS.initEmp = d)
    (hg_step : ∀ (e : MS.Emp) (p : MS.PageIn), g (MS.empStep e p) =
      if MS.isDataPage p then
        MS.updField (g e) (f (MS._extract_headers (MS.normalizedTextOf p)))
      else g e) :
    ∀ pages : List MS.PageIn,
      g (MS.empFold pages) = ((pages.filterMap (MS.supplied f)).getLast?).getD d := by
  intro pages
  induction pages using List.reverseRecOn with
  | nil => simpa [MS.empFold] using hg_init
  | append_singleton pages p ih =>
    have h1 : MS.empFold (pages ++ [p]) = MS.empStep (MS.empFold pages) p := by
      unfold MS.empFold
      rw [List.foldl_append]
      rfl
    rw [h1, hg_step, List.filterMap_append]
    by_cases hdata : MS.isDataPage p = true
    · rw [if_pos hdata]
      cases hf : f (MS._extract_headers (MS.normalizedTextOf p)) with
      | none =>
        have hsup : MS.supplied f p = none := by
          unfold MS.supplied
          rw [if_pos hdata, hf]
        simp [MS.updField, hsup, ih]
      | some v =>
        by_cases hv : v = ""
        · have hsup : MS.supplied f p = none := by
            unfold MS.supplied
            rw [if_pos hdata, hf]
            simp [hv]
          subst hv
          simp [MS.updField, hsup, ih]
        · have hsup : MS.supplied f p = some v := by
            unfold MS.supplied
            rw [if_pos hdata, hf]
            simp [hv]
          have hupd : MS.updField (g (MS.empFold pages)) (some v) = v := by
            unfold MS.updField
            simp [hv]
          rw [hupd]
          simp [hsup, List.filterMap_cons]
    · rw [if_neg hdata]
      have hsup : MS.supplied f p = none := by
        unfold MS.supplied
        rw [if_neg hdata]
      simp [hsup, ih]

lemma processPage_fst (config : List (String × ℚ × ℚ)) (e : MS.Emp) (p : MS.PageIn) :
    (MS.processPage config e p).1 = MS.empStep e p := by
  by_cases h : MS.isDataPage p = true <;> simp [MS.processPage, MS.empStep, h]

/-- Every record produced by the page loop comes from a specific page,
processed under the header state accumulated over the preceding pages. -/
lemma processPdfAux_mem (config : List (String × ℚ × ℚ)) :
    ∀ (pages : List MS.PageIn) (e0 : MS.Emp) (rec : MS.Record),
      rec ∈ MS.processPdfAux config e0 pages →
      ∃ (i : ℕ) (p : MS.PageIn), pages.get? i = some p ∧
        rec ∈ (MS.processPage config ((pages.take i).foldl MS.empStep e0) p).2 := by
  intro pages
  induction pages with
  | nil => intro e0 rec h; simp [MS.processPdfAux] at h
  | cons p rest ih =>
    intro e0 rec h
    unfold MS.processPdfAux at h
    rw [List.mem_append] at h
    rcases h with h | h
    · exact ⟨0, p, rfl, by simpa using h⟩
    · obtain ⟨i, q, hq, hmem⟩ := ih ((MS.processPage config e0 p).1) rec h
      refine ⟨i + 1, q, by simpa using hq, ?_⟩
      have htake : ((p :: rest).take (i + 1)).foldl MS.empStep e0 =
          (rest.take i).foldl MS.empStep (MS.empStep e0 p) := rfl
      rw [htake, ← processPage_fst config e0 p]
      exact hmem

/-! ## Claim C8 -/

/-- Claim C8: each carried-forward header field is overwritten only by a
non-empty extracted value, so after any pages the state holds the most recent
non-empty value of each field (the initial sentinel before any); and every
record emitted by `process_pdf` belongs to a page and carries exactly the
employee fields of the state as of that page. -/
theorem c8_header_carry_forward :
    (∀ pages : List MS.PageIn,
      (MS.empFold pages).employee_id =
        ((pages.filterMap (MS.supplied (fun h => h.employee_id))).getLast?).getD "" ∧
      (MS.empFold pages).employee_name =
        ((pages.filterMap (MS.supplied (fun h => h.employee_name))).getLast?).getD "" ∧
      (MS.empFold pages).tag_number =
        ((pages.filterMap (MS.supplied (fun h => h.tag_number))).getLast?).getD "" ∧
      (MS.empFold pages).salary_month =
        ((pages.filterMap (MS.supplied (fun h => h.salary_month))).getLast?).getD "01/01/1900") ∧
    (∀ (pages : List MS.PageIn) (config : List (String × ℚ × ℚ)) (rec : MS.Record),
      rec ∈ MS.process_pdf pages config →
      ∃ (i : ℕ) (p : MS.PageIn), pages.get? i = some p ∧
        rec ∈ (MS.processPage config (MS.empFold (pages.take i)) p).2 ∧
        rec.employee_id = (MS.empStep (MS.empFold (pages.take i)) p).employee_id ∧
        rec.employee_name = (MS.empStep (MS.empFold (pages.take i)) p).employee_name ∧
        rec.tag_number = (MS.empStep (MS.empFold (pages.take i)) p).tag_number) := by
  constructor
  · intro pages
    refine ⟨?_, ?_, ?_, ?_⟩
    · exact empFold_field (fun e => e.employee_id) (fun h => h.employee_id) ""
        rfl (fun e p => by by_cases h : MS.isDataPage p = true <;> simp [MS.empStep, h]) pages
    · exact empFold_field (fun e => e.employee_name) (fun h => h.employee_name) ""
        rfl (fun e p => by by_cases h : MS.isDataPage p = true <;> simp [MS.empStep, h]) pages
    · exact empFold_field (fun e => e.tag_number) (fun h => h.tag_number) ""
        rfl (fun e p => by by_cases h : MS.isDataPage p = true <;> simp [MS.empStep, h]) pages
    · exact empFold_field (fun e => e.salary_month) (fun h => h.salary_month) "01/01/1900"
        rfl (fun e p => by by_cases h : MS.isDataPage p = true <;> simp [MS.empStep, h]) pages
  · intro pages config rec hrec
    obtain ⟨i, p, hp, hmem⟩ := processPdfAux_mem config pages MS.initEmp rec hrec
    refine ⟨i, p, hp, hmem, ?_⟩
    have hmem' := hmem
    unfold MS.processPage at hmem'
    by_cases hdata : MS.isDataPage p = true
    · rw [if_pos hdata] at hmem'
      simp only [List.mem_map] at hmem'
      obtain ⟨r, hr, hrec'⟩ := hmem'
      subst hrec'
      exact ⟨rfl, rfl, rfl⟩
    · rw [if_neg hdata] at hmem'
      simp at hmem'

/-- Witness for C8: two data pages; the first supplies a salary month and an
employee id (the marker, labels and values are written in extracted visual
order and normalised back), the second supplies nothing, so the state after
both pages still holds the first page's values. -/
theorem c8_header_carry_forward_witness :
    ((MS.empFold [⟨"01/03/2024 רכש שדוחב\n1234567 תוהז\n:בושיח", []⟩,
        ⟨":בושיח", []⟩]).employee_id =
      (([(⟨"01/03/2024 רכש שדוחב\n1234567 תוהז\n:בושיח", []⟩ : MS.PageIn),
          ⟨":בושיח", []⟩].filterMap
        (MS.supplied (fun h => h.employee_id))).getLast?).getD "" ∧
      (MS.empFold [⟨"01/03/2024 רכש שדוחב\n1234567 תוהז\n:בושיח", []⟩,
        ⟨":בושיח", []⟩]).employee_name =
      (([(⟨"01/03/2024 רכש שדוחב\n1234567 תוהז\n:בושיח", []⟩ : MS.PageIn),
          ⟨":בושיח", []⟩].filterMap
        (MS.supplied (fun h => h.employee_name))).getLast?).getD "" ∧
      (MS.empFold [⟨"01/03/2024 רכש שדוחב\n1234567 תוהז\n:בושיח", []⟩,
        ⟨":בושיח", []⟩]).tag_number =
      (([(⟨"01/03/2024 רכש שדוחב\n1234567 תוהז\n:בושיח", []⟩ : MS.PageIn),
          ⟨":בושיח", []⟩].filterMap
        (MS.supplied (fun h => h.tag_number))).getLast?).getD "" ∧
      (MS.empFold [⟨"01/03/2024 רכש שדוחב\n1234567 תוהז\n:בושיח", []⟩,
        ⟨":בושיח", []⟩]).salary_month =
      (([(⟨"01/03/2024 רכש שדוחב\n1234567 תוהז\n:בושיח", []⟩ : MS.PageIn),
          ⟨":בושיח", []⟩].filterMap
        (MS.supplied (fun h => h.salary_month))).getLast?).getD "01/01/1900") ∧
    MS.empFold [⟨"01/03/2024 רכש שדוחב\n1234567 תוהז\n:בושיח", []⟩, ⟨":בושיח", []⟩] =
      ⟨"1234567", "", "", "01/03/2024"⟩ :=
  ⟨c8_header_carry_forward.1
      [⟨"01/03/2024 רכש שדוחב\n1234567 תוהז\n:בושיח", []⟩, ⟨":בושיח", []⟩],
   by decide⟩
